import Mathlib

/-!
Verification of the DocuQuery chunking core and HTTP-layer validation logic
(`src/main.py`).  Texts are modelled as `List Char`, file contents as
`List Nat` (byte values), and the flat upload directory as an association
list from stored path to bytes.  The `chunk_text` loop is embedded with
explicit fuel: a `none` result means the fuel was exhausted before the loop
condition `start < len(text)` became false, which is how the embedding
expresses non-termination of the Python `while` loop.
-/

/-- One overlapping window of the source text, as produced by `chunk_text`
(`src/main.py` lines 105-111). -/
structure Chunk where
  chunk_id : Nat
  text : List Char
  start_char : Nat
  end_char : Nat
  num_chars : Nat
deriving Repr, DecidableEq

/-- The chunk built for window position `start` (`src/main.py` lines 103-111):
`end = start + chunk_size`, `chunk_text = text[start:end]` (Python slicing
clamps to the text length), and `end_char = end if end < len(text) else
len(text)`. -/
def mkChunk (text : List Char) (chunk_size : Nat) (start cid : Nat) : Chunk :=
  let ctext := (text.drop start).take chunk_size
  { chunk_id := cid
    text := ctext
    start_char := start
    end_char := if start + chunk_size < text.length then start + chunk_size else text.length
    num_chars := ctext.length }

/-- Fuel-indexed embedding of the `while start < len(text)` loop of
`chunk_text` (`src/main.py` lines 102-114).  Each iteration emits
`mkChunk` and advances `start` to `end - overlap`; `none` means the fuel ran
out before the loop condition became false. -/
def chunkAux (text : List Char) (chunk_size overlap : Nat) :
    Nat → Nat → Nat → Option (List Chunk)
  | 0, _, _ => none
  | fuel + 1, start, cid =>
    if start < text.length then
      match chunkAux text chunk_size overlap fuel (start + chunk_size - overlap) (cid + 1) with
      | none => none
      | some rest => some (mkChunk text chunk_size start cid :: rest)
    else
      some []

/-- `chunk_text` from `src/main.py` lines 81-116, run with fuel
`len(text) + 1`, which is enough for every terminating execution of the
Python loop (whenever `overlap < chunk_size` the window advances by at least
one position per iteration). -/
def chunk_text (text : List Char) (chunk_size overlap : Nat) : Option (List Chunk) :=
  chunkAux text chunk_size overlap (text.length + 1) 0 0

/-! ### General lemmas about the chunking loop -/

/-- Whenever `overlap < chunk_size` the loop advances `start` by at least one
position per iteration, so fuel exceeding `len(text) - start` suffices. -/
theorem chunkAux_isSome (text : List Char) (chunk_size overlap : Nat)
    (hov : overlap < chunk_size) :
    ∀ fuel start cid, text.length - start < fuel →
      (chunkAux text chunk_size overlap fuel start cid).isSome = true := by
  intro fuel
  induction fuel with
  | zero => intro start cid hf; omega
  | succ n ih =>
    intro start cid hf
    rw [chunkAux]
    by_cases hs : start < text.length
    · simp only [hs, if_true]
      have hrec := ih (start + chunk_size - overlap) (cid + 1) (by omega)
      cases h : chunkAux text chunk_size overlap n (start + chunk_size - overlap) (cid + 1) with
      | none => rw [h] at hrec; simp at hrec
      | some rest => simp [h]
    · simp [hs]

/-- Every chunk in a successful run of the loop is `mkChunk` at some window
position strictly inside the text. -/
theorem chunkAux_mem (text : List Char) (chunk_size overlap : Nat) :
    ∀ fuel start cid l, chunkAux text chunk_size overlap fuel start cid = some l →
      ∀ c ∈ l, ∃ s k, s < text.length ∧ c = mkChunk text chunk_size s k := by
  intro fuel
  induction fuel with
  | zero => intro start cid l h; simp [chunkAux] at h
  | succ n ih =>
    intro start cid l h c hc
    rw [chunkAux] at h
    by_cases hs : start < text.length
    · simp only [hs, if_true] at h
      cases hrec : chunkAux text chunk_size overlap n (start + chunk_size - overlap) (cid + 1) with
      | none => rw [hrec] at h; simp at h
      | some rest =>
        rw [hrec] at h
        simp only [Option.some.injEq] at h
        subst h
        rcases List.mem_cons.mp hc with hc | hc
        · exact ⟨start, cid, hs, hc⟩
        · exact ih _ _ _ hrec c hc
    · simp only [hs, if_false, Option.some.injEq] at h
      subst h
      simp at hc

/-- `end_char` of an emitted chunk is `min (start + chunk_size) (len text)`. -/
theorem mkChunk_end_char (text : List Char) (chunk_size s k : Nat) :
    (mkChunk text chunk_size s k).end_char = min (s + chunk_size) text.length := by
  by_cases h : s + chunk_size < text.length
  · simp only [mkChunk, h, if_true]
    omega
  · simp only [mkChunk, h, if_false]
    omega

/-- `num_chars` of an emitted chunk is the length of its `text` field. -/
theorem mkChunk_num_chars (text : List Char) (chunk_size s k : Nat) :
    (mkChunk text chunk_size s k).num_chars = (mkChunk text chunk_size s k).text.length := rfl

/-- The `text` field of an emitted chunk is the Python slice
`text[start:start+chunk_size]` (which clamps at the text length). -/
theorem mkChunk_text (text : List Char) (chunk_size s k : Nat) :
    (mkChunk text chunk_size s k).text = (text.drop s).take chunk_size := rfl

/-- Length of the `text` field of an emitted chunk. -/
theorem mkChunk_text_length (text : List Char) (chunk_size s k : Nat) :
    (mkChunk text chunk_size s k).text.length = min chunk_size (text.length - s) := by
  simp [mkChunk, List.length_take, List.length_drop]

/-- The head of a successful run is the chunk at the initial window state. -/
theorem chunkAux_head (text : List Char) (chunk_size overlap : Nat)
    (fuel start cid : Nat) (c : Chunk) (rest : List Chunk)
    (h : chunkAux text chunk_size overlap fuel start cid = some (c :: rest)) :
    c = mkChunk text chunk_size start cid := by
  cases fuel with
  | zero => simp [chunkAux] at h
  | succ n =>
    rw [chunkAux] at h
    by_cases hs : start < text.length
    · simp only [hs, if_true] at h
      cases hrec : chunkAux text chunk_size overlap n (start + chunk_size - overlap) (cid + 1) with
      | none => rw [hrec] at h; simp at h
      | some r => rw [hrec] at h; simp only [Option.some.injEq, List.cons.injEq] at h; exact h.1.symm
    · simp [hs] at h

/-- Every chunk in a successful run starts at or after the initial `start`
(this needs `overlap ≤ chunk_size`, otherwise the window could move left). -/
theorem chunkAux_start_le (text : List Char) (chunk_size overlap : Nat)
    (hov : overlap ≤ chunk_size) :
    ∀ fuel start cid l, chunkAux text chunk_size overlap fuel start cid = some l →
      ∀ c ∈ l, start ≤ c.start_char := by
  intro fuel
  induction fuel with
  | zero => intro start cid l h; simp [chunkAux] at h
  | succ n ih =>
    intro start cid l h c hc
    rw [chunkAux] at h
    by_cases hs : start < text.length
    · simp only [hs, if_true] at h
      cases hrec : chunkAux text chunk_size overlap n (start + chunk_size - overlap) (cid + 1) with
      | none => rw [hrec] at h; simp at h
      | some rest =>
        rw [hrec] at h
        simp only [Option.some.injEq] at h
        subst h
        rcases List.mem_cons.mp hc with hc | hc
        · subst hc; exact Nat.le_refl _
        · have := ih _ _ _ hrec c hc
          omega
    · simp only [hs, if_false, Option.some.injEq] at h
      subst h
      simp at hc

/-- Consecutive chunks of a successful run step by exactly
`chunk_size - overlap` in `start_char` and by exactly `1` in `chunk_id`. -/
theorem chunkAux_chain (text : List Char) (chunk_size overlap : Nat)
    (hov : overlap ≤ chunk_size) :
    ∀ fuel start cid l, chunkAux text chunk_size overlap fuel start cid = some l →
      List.Chain' (fun a b => b.start_char = a.start_char + (chunk_size - overlap) ∧
        b.chunk_id = a.chunk_id + 1) l := by
  intro fuel
  induction fuel with
  | zero => intro start cid l h; simp [chunkAux] at h
  | succ n ih =>
    intro start cid l h
    rw [chunkAux] at h
    by_cases hs : start < text.length
    · simp only [hs, if_true] at h
      cases hrec : chunkAux text chunk_size overlap n (start + chunk_size - overlap) (cid + 1) with
      | none => rw [hrec] at h; simp at h
      | some rest =>
        rw [hrec] at h
        simp only [Option.some.injEq] at h
        subst h
        rw [List.chain'_cons']
        refine ⟨?_, ih _ _ _ hrec⟩
        intro b hb
        cases rest with
        | nil => simp at hb
        | cons b0 t =>
          simp only [List.head?_cons, Option.mem_def, Option.some.injEq] at hb
          subst hb
          have hb0 := chunkAux_head text chunk_size overlap n _ _ b0 t hrec
          subst hb0
          constructor
          · show start + chunk_size - overlap = start + (chunk_size - overlap)
            omega
          · rfl
    · simp only [hs, if_false, Option.some.injEq] at h
      subst h
      exact List.chain'_nil

/-- The `chunk_id` of the `i`-th chunk of a successful run is `cid + i`. -/
theorem chunkAux_chunk_id (text : List Char) (chunk_size overlap : Nat) :
    ∀ fuel start cid l, chunkAux text chunk_size overlap fuel start cid = some l →
      ∀ i (hi : i < l.length), (l.get ⟨i, hi⟩).chunk_id = cid + i := by
  intro fuel
  induction fuel with
  | zero => intro start cid l h; simp [chunkAux] at h
  | succ n ih =>
    intro start cid l h i hi
    rw [chunkAux] at h
    by_cases hs : start < text.length
    · simp only [hs, if_true] at h
      cases hrec : chunkAux text chunk_size overlap n (start + chunk_size - overlap) (cid + 1) with
      | none => rw [hrec] at h; simp at h
      | some rest =>
        rw [hrec] at h
        simp only [Option.some.injEq] at h
        subst h
        cases i with
        | zero => rfl
        | succ j =>
          have hj : j < rest.length := by
            simpa [List.length_cons] using hi
          have := ih _ _ _ hrec j hj
          simp only [List.get_cons_succ]
          omega
    · simp only [hs, if_false, Option.some.injEq] at h
      subst h
      simp at hi

/-- The `start_char` fields of a successful run are strictly increasing when
`overlap < chunk_size`. -/
theorem chunkAux_pairwise_lt (text : List Char) (chunk_size overlap : Nat)
    (hov : overlap < chunk_size) :
    ∀ fuel start cid l, chunkAux text chunk_size overlap fuel start cid = some l →
      List.Pairwise (fun a b => a.start_char < b.start_char) l := by
  intro fuel
  induction fuel with
  | zero => intro start cid l h; simp [chunkAux] at h
  | succ n ih =>
    intro start cid l h
    rw [chunkAux] at h
    by_cases hs : start < text.length
    · simp only [hs, if_true] at h
      cases hrec : chunkAux text chunk_size overlap n (start + chunk_size - overlap) (cid + 1) with
      | none => rw [hrec] at h; simp at h
      | some rest =>
        rw [hrec] at h
        simp only [Option.some.injEq] at h
        subst h
        refine List.Pairwise.cons ?_ (ih _ _ _ hrec)
        intro b hb
        have hle := chunkAux_start_le text chunk_size overlap (Nat.le_of_lt hov) n _ _ _ hrec b hb
        show (mkChunk text chunk_size start cid).start_char < b.start_char
        have : (mkChunk text chunk_size start cid).start_char = start := rfl
        omega
    · simp only [hs, if_false, Option.some.injEq] at h
      subst h
      exact List.Pairwise.nil

/-- Coverage: every position of the text at or after the initial `start` is
covered by some chunk of a successful run. -/
theorem chunkAux_cover (text : List Char) (chunk_size overlap : Nat) :
    ∀ fuel start cid l, chunkAux text chunk_size overlap fuel start cid = some l →
      ∀ p, start ≤ p → p < text.length →
        ∃ c ∈ l, c.start_char ≤ p ∧ p < c.end_char := by
  intro fuel
  induction fuel with
  | zero => intro start cid l h; simp [chunkAux] at h
  | succ n ih =>
    intro start cid l h p hsp hp
    rw [chunkAux] at h
    have hs : start < text.length := Nat.lt_of_le_of_lt hsp hp
    simp only [hs, if_true] at h
    cases hrec : chunkAux text chunk_size overlap n (start + chunk_size - overlap) (cid + 1) with
    | none => rw [hrec] at h; simp at h
    | some rest =>
      rw [hrec] at h
      simp only [Option.some.injEq] at h
      subst h
      by_cases hcov : p < (mkChunk text chunk_size start cid).end_char
      · exact ⟨mkChunk text chunk_size start cid, List.mem_cons_self _ _, hsp, hcov⟩
      · rw [mkChunk_end_char] at hcov
        have hse : start + chunk_size ≤ p := by omega
        obtain ⟨c, hc, hcp⟩ := ih _ _ _ hrec p (by omega) hp
        exact ⟨c, List.mem_cons_of_mem _ hc, hcp⟩

/-! ### HTTP-layer model: upload, extract, chunk endpoints -/

/-- Result of a PDF text extraction (`ExtractionResult` in the spec, produced
by the external `extract_text_from_pdf` collaborator in `src/main.py`
lines 34-79); detail strings are not modelled. -/
structure ExtractionResult where
  full_text : List Char
  num_pages : Nat
  num_words : Nat
  num_chars : Nat
deriving Repr, DecidableEq

/-- The flat upload directory, modelled as an association list from stored
path to file bytes; the most recent write shadows earlier ones. -/
abbrev Store := List (List Char × List Nat)

/-- Look a stored file up by path; the head of the list is the newest write. -/
def lookupFile : Store → List Char → Option (List Nat)
  | [], _ => none
  | (p, bs) :: rest, q => if p = q then some bs else lookupFile rest q

/-- The upload directory (`UPLOAD_DIR = Path("uploads")`, `src/main.py`
line 30). -/
def UPLOAD_DIR : List Char := String.toList "uploads"

/-- `UPLOAD_DIR / name`: the stored path of a file name. -/
def filePath (name : List Char) : List Char := UPLOAD_DIR ++ '/' :: name

/-- `filename.endswith(".pdf")` (`src/main.py` lines 164, 236, 274). -/
def endsWithPdf (filename : List Char) : Bool :=
  List.isSuffixOf (String.toList ".pdf") filename

/-- `file.filename.replace(" ", "_")` (`src/main.py` line 177). -/
def safe_filename (filename : List Char) : List Char :=
  filename.map fun c => if c = ' ' then '_' else c

/-- Outcome of the upload endpoint; `badRequest` is HTTP 400, `serverError`
is HTTP 500, and `ok` carries the sanitized filename, the saved path and the
stored byte count (detail strings and the KB presentation rounding of the
size are not modelled). -/
inductive UploadOutcome where
  | badRequest
  | serverError
  | ok (filename : List Char) (saved_path : List Char) (size : Nat)
deriving Repr, DecidableEq

/-- `upload_pdf` (`src/main.py` lines 151-211): reject non-`.pdf` filenames,
then reject empty payloads, otherwise write the bytes under the sanitized
path and run extraction; an extraction failure (modelled by
`extractRes = none`) yields HTTP 500, but the file has already been written
by then.  Returns the outcome together with the updated store. -/
def upload_pdf (store : Store) (filename : List Char) (content : List Nat)
    (extractRes : Option ExtractionResult) : UploadOutcome × Store :=
  if endsWithPdf filename = false then (UploadOutcome.badRequest, store)
  else if content.length = 0 then (UploadOutcome.badRequest, store)
  else
    let path := filePath (safe_filename filename)
    let store2 : Store := (path, content) :: store
    match extractRes with
    | none => (UploadOutcome.serverError, store2)
    | some _ => (UploadOutcome.ok (safe_filename filename) path content.length, store2)

/-- Outcome of the extract endpoint; `notFound` is HTTP 404, `badRequest`
is HTTP 400, `serverError` is HTTP 500. -/
inductive ExtractOutcome where
  | notFound
  | badRequest
  | serverError
  | ok (er : ExtractionResult)
deriving Repr, DecidableEq

/-- `extract_text` endpoint (`src/main.py` lines 213-249): 404 when the
stored path does not exist, then 400 when the filename does not end in
`.pdf`, then extraction (`extractRes = none` models an extraction failure,
HTTP 500). -/
def extract_text (store : Store) (filename : List Char)
    (extractRes : Option ExtractionResult) : ExtractOutcome :=
  match lookupFile store (filePath filename) with
  | none => ExtractOutcome.notFound
  | some _ =>
    if endsWithPdf filename = false then ExtractOutcome.badRequest
    else
      match extractRes with
      | none => ExtractOutcome.serverError
      | some er => ExtractOutcome.ok er

/-- Outcome of the chunk endpoint. -/
inductive ChunkOutcome where
  | notFound
  | badRequest
  | serverError
  | ok (total_chunks : Nat) (chunks : List Chunk)
deriving Repr, DecidableEq

/-- `chunk_pdf` endpoint (`src/main.py` lines 252-292): same 404/400/500
order as `extract_text`, then `chunk_text` on the extracted full text.  The
outer `none` propagates non-termination of the `chunk_text` loop. -/
def chunk_pdf (store : Store) (filename : List Char)
    (extractRes : Option ExtractionResult) (chunk_size overlap : Nat) :
    Option ChunkOutcome :=
  match lookupFile store (filePath filename) with
  | none => some ChunkOutcome.notFound
  | some _ =>
    if endsWithPdf filename = false then some ChunkOutcome.badRequest
    else
      match extractRes with
      | none => some ChunkOutcome.serverError
      | some er =>
        match chunk_text er.full_text chunk_size overlap with
        | none => none
        | some cks => some (ChunkOutcome.ok cks.length cks)

/-! ### Further shared lemmas -/

/-- Taking `min n (length l)` elements is the same as taking `n`. -/
theorem take_min_length {α : Type} (l : List α) (n : Nat) :
    l.take (min n l.length) = l.take n := by
  by_cases h : n ≤ l.length
  · rw [Nat.min_eq_left h]
  · rw [Nat.min_eq_right (by omega), List.take_length, List.take_of_length_le (by omega)]

/-- When `overlap = chunk_size`, the window position never changes, so the
loop body exhausts any amount of fuel from a position inside the text. -/
theorem chunkAux_none_of_overlap_eq (text : List Char) (chunk_size : Nat) :
    ∀ fuel start cid, start < text.length →
      chunkAux text chunk_size chunk_size fuel start cid = none := by
  intro fuel
  induction fuel with
  | zero => intro start cid h; rfl
  | succ n ih =>
    intro start cid h
    rw [chunkAux]
    simp only [h, if_true]
    have hstep : start + chunk_size - chunk_size = start := by omega
    rw [hstep, ih start (cid + 1) h]

/-! ### The claims -/

/-- Claim C1: for every non-empty text and parameters with
`0 < overlap < chunk_size`, the half-open ranges `[start_char, end_char)` of
the chunks produced by `chunk_text` union to exactly `[0, len text)` with no
gaps, and every chunk text has length at most `chunk_size`. -/
theorem c1_chunk_cover (text : List Char) (chunk_size overlap : Nat)
    (hne : text ≠ []) (hpos : 0 < overlap) (hov : overlap < chunk_size) :
    ∃ l, chunk_text text chunk_size overlap = some l ∧
      (∀ p, p < text.length ↔ ∃ c ∈ l, c.start_char ≤ p ∧ p < c.end_char) ∧
      (∀ c ∈ l, c.text.length ≤ chunk_size) := by
  have hsome := chunkAux_isSome text chunk_size overlap hov (text.length + 1) 0 0 (by omega)
  obtain ⟨l, hl⟩ := Option.isSome_iff_exists.mp hsome
  refine ⟨l, hl, ?_, ?_⟩
  · intro p
    constructor
    · intro hp
      exact chunkAux_cover text chunk_size overlap _ 0 0 l hl p (Nat.zero_le _) hp
    · rintro ⟨c, hc, hcp1, hcp2⟩
      obtain ⟨s, k, hslen, hck⟩ := chunkAux_mem text chunk_size overlap _ 0 0 l hl c hc
      rw [hck, mkChunk_end_char] at hcp2
      omega
  · intro c hc
    obtain ⟨s, k, hslen, hck⟩ := chunkAux_mem text chunk_size overlap _ 0 0 l hl c hc
    rw [hck, mkChunk_text_length]
    omega

/-- Witness for C1 at `text = "abc"`, `chunk_size = 2`, `overlap = 1`. -/
theorem c1_chunk_cover_witness :
    (String.toList "abc" ≠ [] ∧ 0 < 1 ∧ 1 < 2) ∧
    (∃ l, chunk_text (String.toList "abc") 2 1 = some l ∧
      (∀ p, p < (String.toList "abc").length ↔
        ∃ c ∈ l, c.start_char ≤ p ∧ p < c.end_char) ∧
      (∀ c ∈ l, c.text.length ≤ 2)) :=
  ⟨⟨by decide, by decide, by decide⟩,
    c1_chunk_cover (String.toList "abc") 2 1 (by decide) (by decide) (by decide)⟩

/-- Claim C2: `chunk_text "abcdefghij" 4 1` produces exactly the four chunks
`("abcd",0,4)`, `("defg",3,7)`, `("ghij",6,10)`, `("j",9,10)` in order. -/
theorem c2_chunk_example :
    chunk_text (String.toList "abcdefghij") 4 1 =
      some [⟨0, String.toList "abcd", 0, 4, 4⟩,
            ⟨1, String.toList "defg", 3, 7, 4⟩,
            ⟨2, String.toList "ghij", 6, 10, 4⟩,
            ⟨3, String.toList "j", 9, 10, 1⟩] := by decide

/-- Claim C3: with `overlap < chunk_size`, every chunk emitted by
`chunk_text` satisfies `end_char = min (start_char + chunk_size) (len text)`,
its `text` field is the slice `text[start_char:end_char]`, and in particular
`end_char` never exceeds the text length. -/
theorem c3_end_char_slice (text : List Char) (chunk_size overlap : Nat)
    (hov : overlap < chunk_size) (l : List Chunk)
    (hl : chunk_text text chunk_size overlap = some l) :
    ∀ c ∈ l, c.end_char = min (c.start_char + chunk_size) text.length ∧
      c.text = (text.drop c.start_char).take (c.end_char - c.start_char) ∧
      c.end_char ≤ text.length := by
  intro c hc
  obtain ⟨s, k, hslen, hck⟩ := chunkAux_mem text chunk_size overlap _ 0 0 l hl c hc
  subst hck
  have hstart : (mkChunk text chunk_size s k).start_char = s := rfl
  rw [hstart, mkChunk_end_char, mkChunk_text]
  refine ⟨rfl, ?_, by omega⟩
  have h1 : min (s + chunk_size) text.length - s = min chunk_size (text.length - s) := by
    omega
  rw [h1, ← List.length_drop s text]
  exact (take_min_length _ _).symm

/-- Witness for C3 at `text = "abc"`, `chunk_size = 2`, `overlap = 0`. -/
theorem c3_end_char_slice_witness :
    (0 < 2) ∧
    chunk_text (String.toList "abc") 2 0 =
      some [⟨0, String.toList "ab", 0, 2, 2⟩, ⟨1, String.toList "c", 2, 3, 1⟩] ∧
    (∀ c ∈ [(⟨0, String.toList "ab", 0, 2, 2⟩ : Chunk), ⟨1, String.toList "c", 2, 3, 1⟩],
      c.end_char = min (c.start_char + 2) (String.toList "abc").length ∧
      c.text = ((String.toList "abc").drop c.start_char).take (c.end_char - c.start_char) ∧
      c.end_char ≤ (String.toList "abc").length) :=
  ⟨by decide, by decide,
    c3_end_char_slice (String.toList "abc") 2 0 (by decide) _ (by decide)⟩

/-- Claim C4: with `overlap < chunk_size`, every pair of consecutive chunks
produced by `chunk_text` satisfies
`start_char (i+1) = start_char i + (chunk_size - overlap)`. -/
theorem c4_consecutive_step (text : List Char) (chunk_size overlap : Nat)
    (hov : overlap < chunk_size) (l : List Chunk)
    (hl : chunk_text text chunk_size overlap = some l) :
    ∀ i (h1 : i + 1 < l.length),
      (l.get ⟨i + 1, h1⟩).start_char =
        (l.get ⟨i, Nat.lt_of_succ_lt h1⟩).start_char + (chunk_size - overlap) := by
  have hchain := chunkAux_chain text chunk_size overlap (Nat.le_of_lt hov) _ 0 0 l hl
  intro i h1
  exact (List.chain'_iff_get.mp hchain i (by omega)).1

/-- Witness for C4 at `text = "abcde"`, `chunk_size = 2`, `overlap = 1`. -/
theorem c4_consecutive_step_witness :
    (1 < 2) ∧
    chunk_text (String.toList "abcde") 2 1 =
      some [⟨0, String.toList "ab", 0, 2, 2⟩, ⟨1, String.toList "bc", 1, 3, 2⟩,
            ⟨2, String.toList "cd", 2, 4, 2⟩, ⟨3, String.toList "de", 3, 5, 2⟩,
            ⟨4, String.toList "e", 4, 5, 1⟩] ∧
    (∀ i (h1 : i + 1 <
        [(⟨0, String.toList "ab", 0, 2, 2⟩ : Chunk), ⟨1, String.toList "bc", 1, 3, 2⟩,
         ⟨2, String.toList "cd", 2, 4, 2⟩, ⟨3, String.toList "de", 3, 5, 2⟩,
         ⟨4, String.toList "e", 4, 5, 1⟩].length),
      ([(⟨0, String.toList "ab", 0, 2, 2⟩ : Chunk), ⟨1, String.toList "bc", 1, 3, 2⟩,
        ⟨2, String.toList "cd", 2, 4, 2⟩, ⟨3, String.toList "de", 3, 5, 2⟩,
        ⟨4, String.toList "e", 4, 5, 1⟩].get ⟨i + 1, h1⟩).start_char =
      ([(⟨0, String.toList "ab", 0, 2, 2⟩ : Chunk), ⟨1, String.toList "bc", 1, 3, 2⟩,
        ⟨2, String.toList "cd", 2, 4, 2⟩, ⟨3, String.toList "de", 3, 5, 2⟩,
        ⟨4, String.toList "e", 4, 5, 1⟩].get ⟨i, Nat.lt_of_succ_lt h1⟩).start_char + (2 - 1)) :=
  ⟨by decide, by decide,
    c4_consecutive_step (String.toList "abcde") 2 1 (by decide) _ (by decide)⟩

/-- Claim C5 as stated is false at a concrete input: the single chunk of
`chunk_text "ab" 3 1` has `num_chars = end_char - start_char` (both are 2)
even though `start_char + chunk_size = 3 > 2 = len text`, refuting the
"only when" direction. -/
theorem c5_counterexample :
    ¬ (∀ c ∈ (chunk_text (String.toList "ab") 3 1).getD [],
        c.num_chars = c.end_char - c.start_char →
          c.start_char + 3 ≤ (String.toList "ab").length) := by decide

/-- Claim C5 amended: for every chunk produced by `chunk_text` (with
`overlap < chunk_size`), `num_chars` equals the length of the chunk text and
always equals `end_char - start_char`; when `start_char + chunk_size`
exceeds the text length it moreover equals the remaining tail length
`len text - start_char`. -/
theorem c5_num_chars (text : List Char) (chunk_size overlap : Nat)
    (hov : overlap < chunk_size) (l : List Chunk)
    (hl : chunk_text text chunk_size overlap = some l) :
    ∀ c ∈ l, c.num_chars = c.text.length ∧
      c.num_chars = c.end_char - c.start_char ∧
      (text.length < c.start_char + chunk_size →
        c.num_chars = text.length - c.start_char) := by
  intro c hc
  obtain ⟨s, k, hslen, hck⟩ := chunkAux_mem text chunk_size overlap _ 0 0 l hl c hc
  subst hck
  have hstart : (mkChunk text chunk_size s k).start_char = s := rfl
  have h1 := mkChunk_text_length text chunk_size s k
  have h2 := mkChunk_end_char text chunk_size s k
  refine ⟨rfl, ?_, ?_⟩
  · rw [mkChunk_num_chars, h1, h2, hstart]
    omega
  · rw [hstart]
    intro hlt
    rw [mkChunk_num_chars, h1]
    omega

/-- Witness for the amended C5 at `text = "ab"`, `chunk_size = 3`,
`overlap = 1`. -/
theorem c5_num_chars_witness :
    (1 < 3) ∧
    chunk_text (String.toList "ab") 3 1 = some [⟨0, String.toList "ab", 0, 2, 2⟩] ∧
    (∀ c ∈ [(⟨0, String.toList "ab", 0, 2, 2⟩ : Chunk)],
      c.num_chars = c.text.length ∧
      c.num_chars = c.end_char - c.start_char ∧
      ((String.toList "ab").length < c.start_char + 3 →
        c.num_chars = (String.toList "ab").length - c.start_char)) :=
  ⟨by decide, by decide,
    c5_num_chars (String.toList "ab") 3 1 (by decide) _ (by decide)⟩

/-- Claim C6: with `overlap < chunk_size`, the `chunk_id` fields of the
chunks produced by `chunk_text` are exactly `0..N-1` in emission order, the
sequence is strictly increasing in `start_char` (so both orders agree), and
empty text produces zero chunks. -/
theorem c6_ids_and_order (text : List Char) (chunk_size overlap : Nat)
    (hov : overlap < chunk_size) (l : List Chunk)
    (hl : chunk_text text chunk_size overlap = some l) :
    (∀ i (hi : i < l.length), (l.get ⟨i, hi⟩).chunk_id = i) ∧
    (∀ i j (hi : i < l.length) (hj : j < l.length), i < j →
      (l.get ⟨i, hi⟩).start_char < (l.get ⟨j, hj⟩).start_char) ∧
    (text = [] → l = []) := by
  refine ⟨?_, ?_, ?_⟩
  · intro i hi
    have := chunkAux_chunk_id text chunk_size overlap _ 0 0 l hl i hi
    omega
  · intro i j hi hj hij
    have hpw := chunkAux_pairwise_lt text chunk_size overlap hov _ 0 0 l hl
    exact List.pairwise_iff_get.mp hpw ⟨i, hi⟩ ⟨j, hj⟩ hij
  · intro hempty
    subst hempty
    have hnil : chunk_text ([] : List Char) chunk_size overlap = some [] := rfl
    rw [hnil] at hl
    injection hl with h2
    exact h2.symm

/-- Witness for C6 at `text = "abcd"`, `chunk_size = 3`, `overlap = 1`. -/
theorem c6_ids_and_order_witness :
    (1 < 3) ∧
    chunk_text (String.toList "abcd") 3 1 =
      some [⟨0, String.toList "abc", 0, 3, 3⟩, ⟨1, String.toList "cd", 2, 4, 2⟩] ∧
    ((∀ i (hi : i < [(⟨0, String.toList "abc", 0, 3, 3⟩ : Chunk),
        ⟨1, String.toList "cd", 2, 4, 2⟩].length),
      ([(⟨0, String.toList "abc", 0, 3, 3⟩ : Chunk),
        ⟨1, String.toList "cd", 2, 4, 2⟩].get ⟨i, hi⟩).chunk_id = i) ∧
    (∀ i j (hi : i < [(⟨0, String.toList "abc", 0, 3, 3⟩ : Chunk),
        ⟨1, String.toList "cd", 2, 4, 2⟩].length)
      (hj : j < [(⟨0, String.toList "abc", 0, 3, 3⟩ : Chunk),
        ⟨1, String.toList "cd", 2, 4, 2⟩].length), i < j →
      ([(⟨0, String.toList "abc", 0, 3, 3⟩ : Chunk),
        ⟨1, String.toList "cd", 2, 4, 2⟩].get ⟨i, hi⟩).start_char <
      ([(⟨0, String.toList "abc", 0, 3, 3⟩ : Chunk),
        ⟨1, String.toList "cd", 2, 4, 2⟩].get ⟨j, hj⟩).start_char) ∧
    (String.toList "abcd" = [] →
      [(⟨0, String.toList "abc", 0, 3, 3⟩ : Chunk),
        ⟨1, String.toList "cd", 2, 4, 2⟩] = [])) :=
  ⟨by decide, by decide,
    c6_ids_and_order (String.toList "abcd") 3 1 (by decide) _ (by decide)⟩

/-- Claim C7: when `overlap = chunk_size` and the text is non-empty, the
loop of `chunk_text` never terminates (it exhausts any amount of fuel, since
the window position stays constant), while for `overlap < chunk_size` the
window advances by a positive amount each iteration and `chunk_text`
terminates with a result. -/
theorem c7_termination (text : List Char) (chunk_size overlap : Nat) :
    (text ≠ [] → ∀ fuel, chunkAux text chunk_size chunk_size fuel 0 0 = none) ∧
    (overlap < chunk_size → (chunk_text text chunk_size overlap).isSome = true) := by
  constructor
  · intro hne fuel
    exact chunkAux_none_of_overlap_eq text chunk_size fuel 0 0
      (List.length_pos.mpr hne)
  · intro hov
    exact chunkAux_isSome text chunk_size overlap hov (text.length + 1) 0 0 (by omega)

/-- Witness for C7 at `text = "a"`, `chunk_size = 1`, `overlap = 0` (the
non-terminating part is evaluated at fuel 5 with `overlap = chunk_size = 1`). -/
theorem c7_termination_witness :
    chunkAux (String.toList "a") 1 1 5 0 0 = none ∧
    (chunk_text (String.toList "a") 1 0).isSome = true :=
  ⟨(c7_termination (String.toList "a") 1 0).1 (by decide) 5,
    (c7_termination (String.toList "a") 1 0).2 (by decide)⟩

/-- Claim C8 as stated is false at a concrete input: `chunk_text` performs
no `chunk_size` validation, and with `chunk_size = 0` and empty text it
returns a chunk sequence (the empty one) rather than failing. -/
theorem c8_counterexample : (chunk_text ([] : List Char) 0 0).isSome = true := by decide

/-- Claim C8 amended: `chunk_text` performs no `chunk_size` validation and
raises no `InvalidArgument` condition.  With `chunk_size = 0` it returns the
empty chunk sequence on empty text, while on non-empty text the loop never
terminates; termination for `chunk_size > 0` additionally requires
`overlap < chunk_size`. -/
theorem c8_no_validation (text : List Char) (chunk_size overlap : Nat) :
    chunk_text ([] : List Char) 0 0 = some [] ∧
    (∀ fuel start cid, start < text.length →
      chunkAux text 0 0 fuel start cid = none) ∧
    (overlap < chunk_size → (chunk_text text chunk_size overlap).isSome = true) :=
  ⟨rfl,
    fun fuel start cid h => chunkAux_none_of_overlap_eq text 0 fuel start cid h,
    fun hov => chunkAux_isSome text chunk_size overlap hov (text.length + 1) 0 0 (by omega)⟩

/-- Witness for the amended C8 at `text = "a"`, `chunk_size = 2`,
`overlap = 1` (the non-terminating part is evaluated at fuel 4). -/
theorem c8_no_validation_witness :
    chunk_text ([] : List Char) 0 0 = some [] ∧
    chunkAux (String.toList "a") 0 0 4 0 0 = none ∧
    (chunk_text (String.toList "a") 2 1).isSome = true :=
  ⟨(c8_no_validation (String.toList "a") 2 1).1,
    (c8_no_validation (String.toList "a") 2 1).2.1 4 0 0 (by decide),
    (c8_no_validation (String.toList "a") 2 1).2.2 (by decide)⟩

/-- Claim C9: the upload operation rejects with HTTP 400 every request whose
filename does not end in `.pdf` and every request whose payload is empty,
storing nothing in both cases; otherwise it writes the bytes under the
filename with spaces replaced by underscores and (when extraction succeeds)
returns the stored path and size. -/
theorem c9_upload (store : Store) (filename : List Char) (content : List Nat)
    (er : Option ExtractionResult) :
    (endsWithPdf filename = false →
      upload_pdf store filename content er = (UploadOutcome.badRequest, store)) ∧
    (content = [] →
      upload_pdf store filename content er = (UploadOutcome.badRequest, store)) ∧
    (endsWithPdf filename = true → content ≠ [] →
      (upload_pdf store filename content er).2 =
        (filePath (safe_filename filename), content) :: store ∧
      lookupFile (upload_pdf store filename content er).2
        (filePath (safe_filename filename)) = some content ∧
      (∀ r, er = some r → (upload_pdf store filename content er).1 =
        UploadOutcome.ok (safe_filename filename)
          (filePath (safe_filename filename)) content.length)) := by
  refine ⟨?_, ?_, ?_⟩
  · intro h
    simp [upload_pdf, h]
  · intro h
    subst h
    by_cases hf : endsWithPdf filename = false
    · simp [upload_pdf, hf]
    · simp [upload_pdf, hf]
  · intro hpdf hne
    have hlen : ¬ content.length = 0 := fun h => hne (List.length_eq_zero.mp h)
    refine ⟨?_, ?_, ?_⟩
    · cases er <;> simp [upload_pdf, hpdf, hlen]
    · cases er <;> simp [upload_pdf, hpdf, hlen, lookupFile]
    · intro r hr
      subst hr
      simp [upload_pdf, hpdf, hlen]

/-- Witness for C9: a rejected `.txt` upload, a rejected empty upload, and a
successful upload of `"a b.pdf"` stored at `uploads/a_b.pdf`. -/
theorem c9_upload_witness :
    upload_pdf [] (String.toList "x.txt") [1] none = (UploadOutcome.badRequest, []) ∧
    upload_pdf [] (String.toList "y.pdf") [] none = (UploadOutcome.badRequest, []) ∧
    lookupFile (upload_pdf [] (String.toList "a b.pdf") [7]
        (some ⟨[], 1, 0, 0⟩)).2
      (filePath (safe_filename (String.toList "a b.pdf"))) = some [7] ∧
    (upload_pdf [] (String.toList "a b.pdf") [7] (some ⟨[], 1, 0, 0⟩)).1 =
      UploadOutcome.ok (safe_filename (String.toList "a b.pdf"))
        (filePath (safe_filename (String.toList "a b.pdf"))) [7].length :=
  ⟨(c9_upload [] (String.toList "x.txt") [1] none).1 (by decide),
    (c9_upload [] (String.toList "y.pdf") [] none).2.1 rfl,
    ((c9_upload [] (String.toList "a b.pdf") [7] (some ⟨[], 1, 0, 0⟩)).2.2
      (by decide) (by decide)).2.1,
    ((c9_upload [] (String.toList "a b.pdf") [7] (some ⟨[], 1, 0, 0⟩)).2.2
      (by decide) (by decide)).2.2 ⟨[], 1, 0, 0⟩ rfl⟩

/-- Claim C10: in both the extract and chunk operations the existence check
precedes the extension check: a missing stored file yields HTTP 404 even
when the filename lacks the `.pdf` suffix, and the HTTP 400 extension error
occurs only when the file exists and the filename does not end in `.pdf`. -/
theorem c10_check_order (store : Store) (filename : List Char)
    (er : Option ExtractionResult) (chunk_size overlap : Nat) :
    (lookupFile store (filePath filename) = none →
      extract_text store filename er = ExtractOutcome.notFound ∧
      chunk_pdf store filename er chunk_size overlap = some ChunkOutcome.notFound) ∧
    (extract_text store filename er = ExtractOutcome.badRequest →
      (∃ bs, lookupFile store (filePath filename) = some bs) ∧
      endsWithPdf filename = false) ∧
    (chunk_pdf store filename er chunk_size overlap = some ChunkOutcome.badRequest →
      (∃ bs, lookupFile store (filePath filename) = some bs) ∧
      endsWithPdf filename = false) := by
  refine ⟨?_, ?_, ?_⟩
  · intro h
    constructor
    · simp [extract_text, h]
    · simp [chunk_pdf, h]
  · intro h
    cases hlk : lookupFile store (filePath filename) with
    | none => simp [extract_text, hlk] at h
    | some bs =>
      refine ⟨⟨bs, rfl⟩, ?_⟩
      by_cases hf : endsWithPdf filename = false
      · exact hf
      · exfalso
        cases er <;> simp [extract_text, hlk, hf] at h
  · intro h
    cases hlk : lookupFile store (filePath filename) with
    | none => simp [chunk_pdf, hlk] at h
    | some bs =>
      refine ⟨⟨bs, rfl⟩, ?_⟩
      by_cases hf : endsWithPdf filename = false
      · exact hf
      · exfalso
        cases er with
        | none => simp [chunk_pdf, hlk, hf] at h
        | some er0 =>
          cases hct : chunk_text er0.full_text chunk_size overlap with
          | none => simp [chunk_pdf, hlk, hf, hct] at h
          | some cks => simp [chunk_pdf, hlk, hf, hct] at h

/-- Witness for C10: a missing file named without `.pdf` yields 404 on both
endpoints, and a stored `.txt` file yields the extension 400 on both. -/
theorem c10_check_order_witness :
    (extract_text [] (String.toList "x") none = ExtractOutcome.notFound ∧
      chunk_pdf [] (String.toList "x") none 5 1 = some ChunkOutcome.notFound) ∧
    ((∃ bs, lookupFile [(filePath (String.toList "doc.txt"), [1])]
        (filePath (String.toList "doc.txt")) = some bs) ∧
      endsWithPdf (String.toList "doc.txt") = false) ∧
    ((∃ bs, lookupFile [(filePath (String.toList "doc.txt"), [1])]
        (filePath (String.toList "doc.txt")) = some bs) ∧
      endsWithPdf (String.toList "doc.txt") = false) :=
  ⟨(c10_check_order [] (String.toList "x") none 5 1).1 rfl,
    (c10_check_order [(filePath (String.toList "doc.txt"), [1])]
      (String.toList "doc.txt") none 5 1).2.1 (by decide),
    (c10_check_order [(filePath (String.toList "doc.txt"), [1])]
      (String.toList "doc.txt") none 5 1).2.2 (by decide)⟩
